import Mathlib

/-!
Shallow embedding of the `crtime` batch file renamer (Rust, `src/lib.rs` and
`src/main.rs`) together with proofs about its behaviour.

Modelling conventions:
* Machine effects are made explicit: the directory scan, the first line of
  standard input, and the `fs::rename` system call are passed to `run` as
  data (the scan result, the stripped line, and a rename oracle); `run`
  returns the list of printed lines, the list of rename attempts it issued
  (in order), and its `Result`.
* `io::Error` is abstracted as a string message (`IoError`).
* `chrono::DateTime<Utc>` is modelled as a civil timestamp record
  (`Timestamp`) with second granularity, which is all this program reads.
  `chrono` implements a total order on `DateTime`; its `partial_cmp` is
  `Some (cmp a b)`, mirrored by `Timestamp.pcmp`.
* Paths are modelled by whether they are absolute plus their list of normal
  components (`RPath`); components are OS strings that either decode as
  UTF-8 or do not (`OsStr`).
-/

/-- Model of `std::io::Error`: an abstract error message. -/
abbrev IoError := String

/-- Model of an `OsStr` path component: either valid UTF-8 text or
undecodable bytes (identified abstractly). `to_str` succeeds exactly on the
former. -/
inductive OsStr where
  | utf8 (s : String)
  | bytes (id : Nat)
deriving DecidableEq, Repr

/-- Model of `OsStr::to_str`. -/
def OsStr.toStr : OsStr → Option String
  | .utf8 s => some s
  | .bytes _ => none

/-- Model of a filesystem path: an optional root followed by components.
`absolute = true` stands for a leading root (`/`). -/
structure RPath where
  absolute : Bool
  comps : List OsStr
deriving DecidableEq, Repr

/-- Model of `Path::iter().last()`: the last component yielded by the
component iterator. For a bare root the iterator yields `/` itself; for the
empty relative path it yields nothing. -/
def RPath.lastComponent (p : RPath) : Option OsStr :=
  match p.comps.getLast? with
  | some c => some c
  | none => if p.absolute then some (.utf8 "/") else none

/-- Model of `Path::parent`: the path without its final component, `none`
for an empty path or a bare root. -/
def RPath.parent (p : RPath) : Option RPath :=
  match p.comps with
  | [] => none
  | _ :: _ => some ⟨p.absolute, p.comps.dropLast⟩

/-- Model of `Path::join` with a single (relative, slash-free) component,
the only way this program uses it. -/
def RPath.join (p : RPath) (s : String) : RPath :=
  ⟨p.absolute, p.comps ++ [.utf8 s]⟩

/-- Model of `chrono::DateTime<Utc>` at the second granularity this program
reads: civil UTC fields. -/
structure Timestamp where
  year : Nat
  month : Nat
  day : Nat
  hour : Nat
  minute : Nat
  second : Nat
deriving DecidableEq, Repr

/-- Model of `Ord::cmp` on `chrono::DateTime<Utc>`: chronological order,
i.e. lexicographic on (year, month, day, hour, minute, second). -/
def Timestamp.cmp : Timestamp → Timestamp → Ordering :=
  compareLex (compareOn Timestamp.year) <|
    compareLex (compareOn Timestamp.month) <|
      compareLex (compareOn Timestamp.day) <|
        compareLex (compareOn Timestamp.hour) <|
          compareLex (compareOn Timestamp.minute) (compareOn Timestamp.second)

instance : Batteries.TransCmp Timestamp.cmp := by
  unfold Timestamp.cmp; infer_instance

/-- Model of `PartialOrd::partial_cmp` on `chrono::DateTime<Utc>`: `chrono`
derives it from the total `Ord` instance, so it is `Some` of the total
comparison. -/
def Timestamp.pcmp (a b : Timestamp) : Option Ordering :=
  some (Timestamp.cmp a b)

/-- Zero-pad a numeral string on the left to width `w` (as `chrono`'s
zero-padded numeric specifiers do). -/
def padZeros (w : Nat) (s : String) : String :=
  String.mk (List.replicate (w - s.length) '0') ++ s

/-- A natural number rendered zero-padded to width `w`. -/
def fmtNum (w n : Nat) : String :=
  padZeros w (toString n)

/-- Model of one `strftime` specifier as used through `chrono`'s
`DateTime::format`: `%Y` zero-padded 4-digit year, `%m` month, `%d` day,
`%H` hour, `%M` minute, `%S` second (all zero-padded to 2). Other
specifiers do not occur in this program. -/
def fmtSpec (t : Timestamp) (c : Char) : String :=
  if c = 'Y' then fmtNum 4 t.year
  else if c = 'm' then fmtNum 2 t.month
  else if c = 'd' then fmtNum 2 t.day
  else if c = 'H' then fmtNum 2 t.hour
  else if c = 'M' then fmtNum 2 t.minute
  else if c = 'S' then fmtNum 2 t.second
  else String.singleton c

/-- Interpreter for a `chrono` format string over its character list:
`%` consumes the following specifier character, everything else is
literal. -/
def strftimeChars (t : Timestamp) : List Char → String
  | [] => ""
  | '%' :: c :: rest => fmtSpec t c ++ strftimeChars t rest
  | c :: rest => String.singleton c ++ strftimeChars t rest

/-- Model of `created.format(pat)` from `chrono`. -/
def Timestamp.format (t : Timestamp) (pat : String) : String :=
  strftimeChars t pat.data

/-- The name derivation inside `FsItem::new`:
`format!("{} {}", created.format("%Y%m%d%M%S"), name)`. -/
def deriveName (created : Timestamp) (name : String) : String :=
  created.format "%Y%m%d%M%S" ++ " " ++ name

/-- Model of `Config` (`src/lib.rs`): the target directory, kept as the raw
argument string (`Path::new` merely wraps it). -/
structure Config where
  dir : String
deriving DecidableEq, Repr

/-- Model of `Config::new`: fewer than two arguments is an error; otherwise
the directory is `args[1]` and later arguments are ignored. -/
def Config.new (args : List String) : Except String Config :=
  match args with
  | _ :: dir :: _ => Except.ok ⟨dir⟩
  | _ => Except.error "Not enough arguments"

/-- Model of `fs::Metadata` as this program reads it: directory flag and
the result of `metadata.created()` (already converted to UTC, as
`DateTime::<Utc>::from` is total on `SystemTime`). -/
structure Metadata where
  isDir : Bool
  createdResult : Except IoError Timestamp

/-- Model of `fs::DirEntry`: its full path (`entry.path()`) and the result
of `entry.metadata()`. -/
structure DirEntry where
  path : RPath
  metaResult : Except IoError Metadata

/-- Model of the `FsItem` struct. -/
structure FsItem where
  created : Timestamp
  name : String
  new_name : String
  path : RPath
  new_path : RPath
deriving Repr

/-- Model of the `FsItemError` enum. -/
inductive FsItemError where
  | Io (e : IoError)
  | ItemIsDir
  | NameFailed
  | ParentFailed
deriving DecidableEq, Repr

/-- Model of the `FsItemRenameError` struct: the item and the underlying
`io::Error` of the failed `fs::rename`. -/
structure FsItemRenameError where
  item : FsItem
  reason : IoError

/-- Model of `FsItem::new`, following the source step by step: propagate
the entry error, take the entry path, propagate metadata and creation-time
errors, reject directories, extract the last path component as UTF-8,
derive the new name, and join it onto the parent directory. -/
def FsItem.new (entry : Except IoError DirEntry) : Except FsItemError FsItem :=
  match entry with
  | .error e => .error (.Io e)
  | .ok entry =>
    let path := entry.path
    match entry.metaResult with
    | .error e => .error (.Io e)
    | .ok meta =>
      match meta.createdResult with
      | .error e => .error (.Io e)
      | .ok created =>
        if meta.isDir then
          .error .ItemIsDir
        else
          match path.lastComponent with
          | none => .error .NameFailed
          | some last =>
            match last.toStr with
            | none => .error .NameFailed
            | some name =>
              let new_name := deriveName created name
              match path.parent with
              | none => .error .ParentFailed
              | some parent =>
                .ok ⟨created, name, new_name, path, parent.join new_name⟩

/-- Model of `FsItem::rename`: issue `fs::rename(path, new_path)` against
the rename oracle `fsRename`; on failure wrap the item with the reason. -/
def FsItem.rename (it : FsItem) (fsRename : RPath → RPath → Except IoError Unit) :
    Except FsItemRenameError FsItem :=
  match fsRename it.path it.new_path with
  | .ok _ => .ok it
  | .error e => .error ⟨it, e⟩

/-- Helper extracting the error of an `Except` (the `unwrap_err` side of
`partition_results`). -/
def exceptError {ε α : Type} : Except ε α → Option ε
  | .error e => some e
  | .ok _ => none

/-- Model of `partition_results`: `Iterator::partition` on `Result::is_ok`
(order-preserving in both halves), then `unwrap` resp. `unwrap_err` on each
half (written as `filterMap`, which agrees with `map unwrap` on lists whose
elements are all `ok`, resp. all `error`). -/
def partition_results {ε α : Type} (l : List (Except ε α)) : List α × List ε :=
  let p := l.partition Except.isOk
  (p.1.filterMap Except.toOption, p.2.filterMap exceptError)

/-- The item collection step of `run`:
`dir.map(FsItem::new).filter_map(Result::ok).collect()`. -/
def collectItems (entries : List (Except IoError DirEntry)) : List FsItem :=
  (entries.map FsItem.new).filterMap Except.toOption

/-- The sort comparator of `run` as a `Bool` relation:
`a.created.partial_cmp(&b.created).unwrap()` is at most `eq`. The `unwrap`
is rendered with a default that is never used, since `Timestamp.pcmp` is
always `some`. -/
def sortLe (a b : FsItem) : Bool :=
  ((Timestamp.pcmp a.created b.created).getD .eq).isLE

/-- The sorting step of `run`: a stable sort by the comparator, modelling
`Vec::sort_by` (which is stable). -/
def sortItems (l : List FsItem) : List FsItem :=
  l.mergeSort sortLe

/-- Observable behaviour of one `run` call: the lines printed to standard
output, the rename attempts issued (in order), and the returned result. -/
structure RunOutput where
  printed : List String
  attempted : List FsItem
  result : Except IoError Unit

/-- Model of `run`. Its effects are explicit parameters: `readDirResult`
is the outcome of `config.dir.read_dir()` (an error, or the lazily yielded
per-entry results); `stdinFirst` is `stdin.lock().lines().next()` with
end-of-line markers already stripped; `fsRename` decides each
`fs::rename`. -/
def run (cfg : Config) (readDirResult : Except IoError (List (Except IoError DirEntry)))
    (stdinFirst : Option (Except IoError String))
    (fsRename : RPath → RPath → Except IoError Unit) : RunOutput :=
  let header := ["Directory: " ++ cfg.dir]
  match readDirResult with
  | .error e => ⟨header, [], .error e⟩
  | .ok entries =>
    let items := sortItems (collectItems entries)
    let preview := items.map fun it => "Rename: " ++ it.name ++ " -> " ++ it.new_name
    match stdinFirst with
    | some (.ok line) =>
      if line = "Y" then
        let outcomes := items.map fun it => FsItem.rename it fsRename
        let parts := partition_results outcomes
        let okLines := parts.1.map fun it => "- " ++ it.name ++ " -> " ++ it.new_name
        let errLines := parts.2.map fun e =>
          "- " ++ e.item.name ++ " -> " ++ e.item.new_name ++ ": " ++ e.reason
        ⟨header ++ preview ++ ["\nRenamed items:"] ++ okLines ++ ["\nFailed:"] ++ errLines
          ++ ["Ok"], items, .ok ()⟩
      else
        ⟨header ++ preview ++ ["Renaming cancelled."], [], .ok ()⟩
    | _ => ⟨header ++ preview ++ ["Renaming cancelled."], [], .ok ()⟩

/-! ### Helper lemmas -/

/-- An `Ordering` is at most `eq` exactly when it is not `gt`. -/
theorem ordering_isLE_iff (o : Ordering) : o.isLE = true ↔ o ≠ .gt := by
  cases o <;> simp [Ordering.isLE]

/-- The sort comparator unfolds to `isLE` of the total comparison (the
`unwrap` default is never reached). -/
theorem sortLe_eq (a b : FsItem) :
    sortLe a b = (Timestamp.cmp a.created b.created).isLE := rfl

/-- Transitivity of the sort comparator. -/
theorem sortLe_trans (a b c : FsItem) (h1 : sortLe a b = true)
    (h2 : sortLe b c = true) : sortLe a c = true := by
  rw [sortLe_eq] at h1 h2 ⊢
  rw [ordering_isLE_iff] at h1 h2 ⊢
  exact @Batteries.TransCmp.le_trans _ Timestamp.cmp _ _ _ _ h1 h2

/-- Totality of the sort comparator. -/
theorem sortLe_total (a b : FsItem) : (sortLe a b || sortLe b a) = true := by
  rw [sortLe_eq, sortLe_eq]
  have hs := @Batteries.OrientedCmp.symm _ Timestamp.cmp _ a.created b.created
  cases hc : Timestamp.cmp a.created b.created with
  | lt => simp [Ordering.isLE]
  | eq => simp [Ordering.isLE]
  | gt =>
    rw [hc] at hs
    rw [← hs]
    simp [Ordering.swap, Ordering.isLE]

/-- Filtering to the `ok` elements and then unwrapping is `filterMap` to
the options. -/
theorem filter_isOk_filterMap {ε α : Type} (l : List (Except ε α)) :
    (l.filter Except.isOk).filterMap Except.toOption = l.filterMap Except.toOption := by
  induction l with
  | nil => rfl
  | cons x xs ih =>
    cases x <;> simp [List.filter_cons, Except.isOk, Except.toBool, Except.toOption, ih]

/-- Filtering to the `error` elements and then unwrapping is `filterMap`
to the errors. -/
theorem filter_not_isOk_filterMap {ε α : Type} (l : List (Except ε α)) :
    (l.filter (not ∘ Except.isOk)).filterMap exceptError = l.filterMap exceptError := by
  induction l with
  | nil => rfl
  | cons x xs ih =>
    cases x <;> simp [List.filter_cons, Except.isOk, Except.toBool, exceptError, ih]

/-- First component of `partition_results`, as a stable `filterMap`. -/
theorem partition_results_fst {ε α : Type} (l : List (Except ε α)) :
    (partition_results l).1 = l.filterMap Except.toOption := by
  unfold partition_results
  rw [List.partition_eq_filter_filter]
  exact filter_isOk_filterMap l

/-- Second component of `partition_results`, as a stable `filterMap`. -/
theorem partition_results_snd {ε α : Type} (l : List (Except ε α)) :
    (partition_results l).2 = l.filterMap exceptError := by
  unfold partition_results
  rw [List.partition_eq_filter_filter]
  exact filter_not_isOk_filterMap l

/-- The unwrapped `ok` elements, re-wrapped, form a subsequence of the
input list. -/
theorem map_ok_filterMap_sublist {ε α : Type} (l : List (Except ε α)) :
    ((l.filterMap Except.toOption).map Except.ok).Sublist l := by
  induction l with
  | nil => simp
  | cons x xs ih =>
    cases x with
    | ok a =>
      simpa [List.filterMap_cons, Except.toOption] using ih.cons₂ (Except.ok a)
    | error e =>
      simpa [List.filterMap_cons, Except.toOption] using ih.cons (Except.error e)

/-- The unwrapped `error` elements, re-wrapped, form a subsequence of the
input list. -/
theorem map_error_filterMap_sublist {ε α : Type} (l : List (Except ε α)) :
    ((l.filterMap exceptError).map Except.error).Sublist l := by
  induction l with
  | nil => simp
  | cons x xs ih =>
    cases x with
    | ok a =>
      simpa [List.filterMap_cons, exceptError] using ih.cons (Except.ok a)
    | error e =>
      simpa [List.filterMap_cons, exceptError] using ih.cons₂ (Except.error e)

/-- Re-wrapping both halves of the partition and concatenating them is a
permutation of the input: nothing is lost or duplicated. -/
theorem filterMap_ok_error_perm {ε α : Type} (l : List (Except ε α)) :
    ((l.filterMap Except.toOption).map Except.ok
      ++ (l.filterMap exceptError).map Except.error).Perm l := by
  induction l with
  | nil => simp
  | cons x xs ih =>
    cases x with
    | ok a =>
      simpa [List.filterMap_cons, Except.toOption, exceptError] using ih.cons (Except.ok a)
    | error e =>
      simp only [List.filterMap_cons, Except.toOption, exceptError, List.map_cons]
      exact List.perm_middle.trans (ih.cons (Except.error e))

/-- The derived name is never the empty string (it contains a space). -/
theorem deriveName_ne_empty (t : Timestamp) (n : String) : deriveName t n ≠ "" := by
  intro h
  have h2 := congrArg String.length h
  rw [deriveName, String.length_append, String.length_append] at h2
  have hsp : (" " : String).length = 1 := rfl
  have hem : ("" : String).length = 0 := rfl
  omega

/-- Parent of a path obtained by appending one component: the original
path. -/
theorem rpath_parent_concat (ab : Bool) (l : List OsStr) (x : OsStr) :
    RPath.parent ⟨ab, l ++ [x]⟩ = some ⟨ab, l⟩ := by
  cases l with
  | nil => rfl
  | cons a as =>
    simp only [List.cons_append, RPath.parent]
    rw [← List.cons_append, List.dropLast_concat]

/-- Last element of a list of the shape produced by `run`'s printing. -/
theorem getLast?_cons_append_singleton {α : Type} (a : α) (l : List α) (x : α) :
    (a :: (l ++ [x])).getLast? = some x := by
  rw [← List.cons_append, List.getLast?_concat]

/-! ### Claim theorems -/

/-- C1: the Name Deriver produces `created` formatted as `YYYYMMDDmmSS`
(four-digit year, two-digit month, day, minute, second — minutes before
seconds, hours omitted), one space, then the original name; in particular
a file named "report.txt" created at 2023-07-04T00:09:05Z derives
"202307040905 report.txt". -/
theorem c1_derive_name :
    (∀ (t : Timestamp) (name : String), deriveName t name =
        fmtNum 4 t.year ++ fmtNum 2 t.month ++ fmtNum 2 t.day ++ fmtNum 2 t.minute
          ++ fmtNum 2 t.second ++ " " ++ name)
    ∧ deriveName ⟨2023, 7, 4, 0, 9, 5⟩ "report.txt" = "202307040905 report.txt" := by
  constructor
  · intro t name
    simp [deriveName, Timestamp.format, strftimeChars, fmtSpec, String.append_assoc,
      String.append_empty]
  · rfl

/-- C2: the rename step executes iff the first stdin line (stripped) is
exactly "Y": then the attempted renames are exactly the sorted collection;
for any other line, end-of-stream, or read error, zero renames are
attempted, "Renaming cancelled." is the last line printed, and `run`
still returns `Ok`. -/
theorem c2_confirmation_gate (cfg : Config) (entries : List (Except IoError DirEntry))
    (stdinFirst : Option (Except IoError String))
    (fsRename : RPath → RPath → Except IoError Unit) :
    (run cfg (Except.ok entries) stdinFirst fsRename).result = Except.ok ()
    ∧ ((stdinFirst = some (Except.ok "Y")
          ∧ (run cfg (Except.ok entries) stdinFirst fsRename).attempted
              = sortItems (collectItems entries))
        ∨ (stdinFirst ≠ some (Except.ok "Y")
          ∧ (run cfg (Except.ok entries) stdinFirst fsRename).attempted = []
          ∧ (run cfg (Except.ok entries) stdinFirst fsRename).printed.getLast?
              = some "Renaming cancelled.")) := by
  match stdinFirst with
  | none =>
    exact ⟨rfl, Or.inr ⟨by simp, by simp [run], by
      simp [run, getLast?_cons_append_singleton]⟩⟩
  | some (.error e) =>
    exact ⟨rfl, Or.inr ⟨by simp, by simp [run], by
      simp [run, getLast?_cons_append_singleton]⟩⟩
  | some (.ok line) =>
    by_cases hl : line = "Y"
    · subst hl
      exact ⟨by simp [run], Or.inl ⟨rfl, by simp [run]⟩⟩
    · refine ⟨by simp [run, hl], Or.inr ⟨by simp [hl], by simp [run, hl], ?_⟩⟩
      simp [run, hl, getLast?_cons_append_singleton]

/-- C3: when confirmed with "Y", a rename is attempted exactly once for
every item of the sorted collection, in order, regardless of earlier
failures; `partition_results` splits the outcomes into a successes and a
failures sequence that are order-preserving subsequences of the outcome
list (stable partition) whose re-wrapped concatenation is a permutation of
the full outcome list (nothing missing or duplicated). -/
theorem c3_rename_partition (cfg : Config) (entries : List (Except IoError DirEntry))
    (fsRename : RPath → RPath → Except IoError Unit) :
    let confirmed := sortItems (collectItems entries)
    let outcomes := confirmed.map fun it => FsItem.rename it fsRename
    let parts := partition_results outcomes
    (run cfg (Except.ok entries) (some (Except.ok "Y")) fsRename).attempted = confirmed
    ∧ parts.1 = outcomes.filterMap Except.toOption
    ∧ parts.2 = outcomes.filterMap exceptError
    ∧ (parts.1.map Except.ok).Sublist outcomes
    ∧ (parts.2.map Except.error).Sublist outcomes
    ∧ (parts.1.map Except.ok ++ parts.2.map Except.error).Perm outcomes := by
  intro confirmed outcomes parts
  refine ⟨by simp [run], partition_results_fst _, partition_results_snd _, ?_, ?_, ?_⟩
  · rw [partition_results_fst]
    exact map_ok_filterMap_sublist _
  · rw [partition_results_snd]
    exact map_error_filterMap_sublist _
  · rw [partition_results_fst, partition_results_snd]
    exact filterMap_ok_error_perm _

/-- C4: the sorted collection is non-decreasing by `created` (comparison
never `gt` between neighbours), and the sort is stable: the subsequence of
items carrying any fixed timestamp is unchanged from the scan order. -/
theorem c4_sorted_stable (l : List FsItem) :
    List.Pairwise (fun a b => Timestamp.cmp a.created b.created ≠ Ordering.gt) (sortItems l)
    ∧ ∀ t, (sortItems l).filter (fun it => decide (it.created = t))
        = l.filter (fun it => decide (it.created = t)) := by
  constructor
  · have h := List.sorted_mergeSort sortLe_trans sortLe_total l
    exact h.imp fun hab => (ordering_isLE_iff _).mp ((sortLe_eq _ _).symm.trans hab)
  · intro t
    set p : FsItem → Bool := fun it => decide (it.created = t) with hp
    have hpw : List.Pairwise (fun a b => sortLe a b = true) (l.filter p) := by
      apply List.pairwise_of_forall_mem_list
      intro x hx y hy
      have ex : x.created = t := of_decide_eq_true (List.mem_filter.mp hx).2
      have ey : y.created = t := of_decide_eq_true (List.mem_filter.mp hy).2
      rw [sortLe_eq, ex, ey, @Batteries.OrientedCmp.cmp_refl _ Timestamp.cmp t _]
      rfl
    have hsubl : (List.filter p l).Sublist (sortItems l) :=
      List.sublist_mergeSort sortLe_trans sortLe_total hpw (List.filter_sublist l)
    have hall : ∀ x ∈ List.filter p l, p x = true := fun x hx => (List.mem_filter.mp hx).2
    have hfe : (List.filter p l).filter p = List.filter p l := List.filter_eq_self.mpr hall
    have hsub2 : (List.filter p l).Sublist ((sortItems l).filter p) := by
      have := hsubl.filter p
      rwa [hfe] at this
    have hlen : ((sortItems l).filter p).length = (List.filter p l).length :=
      ((List.mergeSort_perm l sortLe).filter p).length_eq
    exact (hsub2.eq_of_length hlen.symm).symm

/-- C5: per-entry classification failures are silently discarded — the
collected items are exactly the sub-sequence of entries on which
`FsItem::new` returned `Ok` — while failure of the directory scan itself
makes `run` return that error; with a successful scan `run` returns
`Ok`. -/
theorem c5_classification_swallowed (cfg : Config)
    (stdinFirst : Option (Except IoError String))
    (fsRename : RPath → RPath → Except IoError Unit) :
    (∀ e, (run cfg (Except.error e) stdinFirst fsRename).result = Except.error e)
    ∧ ∀ entries, collectItems entries = (entries.map FsItem.new).filterMap Except.toOption
        ∧ ((collectItems entries).map Except.ok).Sublist (entries.map FsItem.new)
        ∧ (run cfg (Except.ok entries) stdinFirst fsRename).result = Except.ok () := by
  refine ⟨fun e => rfl, fun entries => ⟨rfl, map_ok_filterMap_sublist _, ?_⟩⟩
  match stdinFirst with
  | none => rfl
  | some (.error e) => rfl
  | some (.ok line) => by_cases hl : line = "Y" <;> simp [run, hl]

/-- C6: a directory entry whose metadata reports a directory (with entry,
metadata and creation-time reads all succeeding) is classified as
`ItemIsDir`, so it never produces an item and never fails the run. -/
theorem c6_dir_rejected (p : RPath) (t : Timestamp) :
    FsItem.new (Except.ok ⟨p, Except.ok ⟨true, Except.ok t⟩⟩)
      = Except.error FsItemError.ItemIsDir := by
  simp [FsItem.new]

/-- C7: whenever the directory scan succeeds, `run` returns `Ok ()`, for
every confirmation input and every outcome of the individual rename
attempts. -/
theorem c7_run_ok (cfg : Config) (entries : List (Except IoError DirEntry))
    (stdinFirst : Option (Except IoError String))
    (fsRename : RPath → RPath → Except IoError Unit) :
    (run cfg (Except.ok entries) stdinFirst fsRename).result = Except.ok () := by
  match stdinFirst with
  | none => rfl
  | some (.error e) => rfl
  | some (.ok line) =>
    by_cases hl : line = "Y" <;> simp [run, hl]

/-- C8: every `FsItem` produced by `FsItem::new` has `new_path` in the same
parent directory as `path`, a non-empty `new_name`, and a `new_name` that
is exactly the pure function `deriveName` of its `created` and `name` (so
equal inputs give equal derived names; the embedding is immutable by
construction). -/
theorem c8_item_invariants (r : Except IoError DirEntry) (item : FsItem)
    (h : FsItem.new r = Except.ok item) :
    item.new_path.parent = item.path.parent
    ∧ item.new_name ≠ ""
    ∧ item.new_name = deriveName item.created item.name := by
  match r with
  | .error e => simp [FsItem.new] at h
  | .ok entry =>
    rcases entry with ⟨path, metaR⟩
    match metaR with
    | .error e => simp [FsItem.new] at h
    | .ok meta =>
      rcases meta with ⟨isDir, createdR⟩
      match createdR with
      | .error e => simp [FsItem.new] at h
      | .ok created =>
        cases isDir with
        | true => simp [FsItem.new] at h
        | false =>
          match hlc : path.lastComponent with
          | none => simp [FsItem.new, hlc] at h
          | some last =>
            match hts : last.toStr with
            | none => simp [FsItem.new, hlc, hts] at h
            | some name =>
              match hpar : path.parent with
              | none => simp [FsItem.new, hlc, hts, hpar] at h
              | some parent =>
                simp only [FsItem.new, hlc, hts, hpar, Bool.false_eq_true, if_false,
                  Except.ok.injEq] at h
                subst h
                refine ⟨?_, deriveName_ne_empty _ _, rfl⟩
                show (parent.join (deriveName created name)).parent = path.parent
                rcases path with ⟨ab, comps⟩
                match comps, hpar with
                | c :: cs, hpar =>
                  simp only [RPath.parent, Option.some.injEq] at hpar
                  rw [RPath.join]
                  rw [← hpar]
                  exact rpath_parent_concat ab (c :: cs).dropLast _

/-- C8 witness: the invariants instantiated at a concrete file `d/a.txt`
created 2023-07-04T00:09:05Z. -/
theorem c8_item_invariants_witness :
    RPath.parent ⟨false, [OsStr.utf8 "d", OsStr.utf8 "202307040905 a.txt"]⟩
        = RPath.parent ⟨false, [OsStr.utf8 "d", OsStr.utf8 "a.txt"]⟩
    ∧ "202307040905 a.txt" ≠ ""
    ∧ "202307040905 a.txt" = deriveName ⟨2023, 7, 4, 0, 9, 5⟩ "a.txt" :=
  c8_item_invariants
    (Except.ok ⟨⟨false, [OsStr.utf8 "d", OsStr.utf8 "a.txt"]⟩,
      Except.ok ⟨false, Except.ok ⟨2023, 7, 4, 0, 9, 5⟩⟩⟩)
    ⟨⟨2023, 7, 4, 0, 9, 5⟩, "a.txt", "202307040905 a.txt",
      ⟨false, [OsStr.utf8 "d", OsStr.utf8 "a.txt"]⟩,
      ⟨false, [OsStr.utf8 "d", OsStr.utf8 "202307040905 a.txt"]⟩⟩ (by rfl)

/-- C9: the comparison used by the sort comparator never returns `none`:
the timestamp order is total, so the `unwrap` in the comparator cannot
panic. -/
theorem c9_pcmp_total (a b : Timestamp) :
    (Timestamp.pcmp a b).isSome = true
    ∧ Timestamp.pcmp a b = some (Timestamp.cmp a b) := ⟨rfl, rfl⟩

/-- C10: `Config::new` errs with "Not enough arguments" exactly when fewer
than two arguments are given; with two or more it succeeds with `dir`
taken from `args[1]`, ignoring every later argument (it is a pure function:
no path validation, no filesystem access). -/
theorem c10_config_new (args : List String) :
    (Config.new args = Except.error "Not enough arguments" ↔ args.length < 2)
    ∧ ∀ a b rest, Config.new (a :: b :: rest) = Except.ok ⟨b⟩ := by
  refine ⟨?_, fun a b rest => rfl⟩
  match args with
  | [] => simp [Config.new]
  | [a] => simp [Config.new]
  | a :: b :: rest => simp [Config.new]
